import Mathlib

/-!
Verification development for the MovieApp-ML repository.

The definitions below are shallow embeddings of the Python functions in
`app.py`, `db_models.py` and `ml_recommendation_engine/integrate_movielens.py`:
pure functions become Lean functions, pandas data frames become lists of
records, fallible calls return `Option` or `Except`, and numeric columns are
modelled with `Int` and `Rat`.
-/

namespace MovieApp

/-- Python values as they arrive from a JSON body: the shapes the code
distinguishes (absent/None, numbers, strings). -/
inductive PyVal where
  | vNone
  | vInt (n : Int)
  | vRat (q : Rat)
  | vStr (s : List Char)
deriving DecidableEq

/-- Characters matched by the first substitution in `clean_text`
(the regex class containing newline, carriage return, tab, backslash and
double quote). -/
def isEscapeChar (c : Char) : Bool :=
  c = '\n' || c = '\r' || c = '\t' || c = '\\' || c = '"'

/-- Whitespace characters in the ASCII range matched by the regex
whitespace class used by `clean_text` and by `str.strip`. -/
def isPySpace (c : Char) : Bool :=
  c = ' ' || c = '\t' || c = '\n' || c = '\r' || c = '\x0B' || c = '\x0C'

/-- First substitution of `clean_text`: every escape character becomes one
space. -/
def subEscapes (l : List Char) : List Char :=
  l.map fun c => if isEscapeChar c then ' ' else c

/-- Second substitution of `clean_text`: each maximal whitespace run becomes
a single space.  The boolean flag records whether the previous character was
part of a whitespace run. -/
def collapseSpaces : Bool → List Char → List Char
  | _, [] => []
  | prev, c :: rest =>
    if isPySpace c then
      if prev then collapseSpaces true rest
      else ' ' :: collapseSpaces true rest
    else c :: collapseSpaces false rest

/-- Python `str.strip`: whitespace removed from both ends. -/
def pyStrip (l : List Char) : List Char :=
  ((l.dropWhile isPySpace).reverse.dropWhile isPySpace).reverse

/-- The function `clean_text` of `app.py`: a string goes through the two
regex substitutions and is stripped; any non-string value maps to the empty
string. -/
def clean_text : PyVal → List Char
  | .vStr s => pyStrip (collapseSpaces false (subEscapes s))
  | _ => []

/-- Two adjacent characters are never both whitespace. -/
def noDoubleSpace (a b : Char) : Prop :=
  ¬(isPySpace a = true ∧ isPySpace b = true)

theorem collapseSpaces_nil (b : Bool) : collapseSpaces b [] = [] := rfl

theorem collapseSpaces_cons (b : Bool) (c : Char) (l : List Char) :
    collapseSpaces b (c :: l) =
      if isPySpace c then
        (if b then collapseSpaces true l else ' ' :: collapseSpaces true l)
      else c :: collapseSpaces false l := rfl

theorem mem_subEscapes {l : List Char} {c : Char} (hc : c ∈ subEscapes l) :
    isEscapeChar c = false := by
  simp only [subEscapes, List.mem_map] at hc
  obtain ⟨d, _, hd⟩ := hc
  subst hd
  by_cases h : isEscapeChar d = true
  · rw [if_pos h]; decide
  · rw [if_neg h]
    exact Bool.not_eq_true _ ▸ h

theorem mem_collapseSpaces {c : Char} :
    ∀ (b : Bool) (l : List Char), c ∈ collapseSpaces b l → c = ' ' ∨ c ∈ l := by
  intro b l
  induction l generalizing b with
  | nil => intro h; simp [collapseSpaces] at h
  | cons d rest ih =>
    intro h
    rcases Bool.eq_false_or_eq_true (isPySpace d) with hd | hd
    · simp only [collapseSpaces_cons, hd, if_true] at h
      cases b with
      | true =>
        rcases ih true h with h2 | h2
        · exact Or.inl h2
        · exact Or.inr (List.mem_cons_of_mem d h2)
      | false =>
        simp only [Bool.false_eq_true, if_false] at h
        rcases List.mem_cons.mp h with h1 | h1
        · exact Or.inl h1
        · rcases ih true h1 with h2 | h2
          · exact Or.inl h2
          · exact Or.inr (List.mem_cons_of_mem d h2)
    · simp only [collapseSpaces_cons, hd, Bool.false_eq_true, if_false] at h
      rcases List.mem_cons.mp h with h1 | h1
      · exact Or.inr (h1 ▸ List.mem_cons_self d rest)
      · rcases ih false h1 with h2 | h2
        · exact Or.inl h2
        · exact Or.inr (List.mem_cons_of_mem d h2)

theorem head?_collapseSpaces_true :
    ∀ (l : List Char) {c : Char},
      (collapseSpaces true l).head? = some c → isPySpace c = false := by
  intro l
  induction l with
  | nil => intro c h; simp [collapseSpaces] at h
  | cons d rest ih =>
    intro c h
    rcases Bool.eq_false_or_eq_true (isPySpace d) with hd | hd
    · simp only [collapseSpaces_cons, hd, if_true] at h
      exact ih h
    · simp only [collapseSpaces_cons, hd, Bool.false_eq_true, if_false,
        List.head?_cons, Option.some.injEq] at h
      exact h ▸ hd

theorem chain'_collapseSpaces :
    ∀ (b : Bool) (l : List Char), List.Chain' noDoubleSpace (collapseSpaces b l) := by
  intro b l
  induction l generalizing b with
  | nil => simp [collapseSpaces]
  | cons d rest ih =>
    rcases Bool.eq_false_or_eq_true (isPySpace d) with hd | hd
    · simp only [collapseSpaces_cons, hd, if_true]
      cases b with
      | true => exact ih true
      | false =>
        simp only [Bool.false_eq_true, if_false]
        refine List.chain'_cons'.mpr ⟨?_, ih true⟩
        intro y hy
        have hns : isPySpace y = false := head?_collapseSpaces_true rest hy
        exact fun hcontra => by rw [hns] at hcontra; exact Bool.false_ne_true hcontra.2
    · simp only [collapseSpaces_cons, hd, Bool.false_eq_true, if_false]
      refine List.chain'_cons'.mpr ⟨?_, ih false⟩
      intro y _
      exact fun hcontra => by rw [hd] at hcontra; exact Bool.false_ne_true hcontra.1

theorem head?_dropWhileSpace (p : Char → Bool) :
    ∀ (l : List Char) {c : Char}, (l.dropWhile p).head? = some c → p c = false := by
  intro l
  induction l with
  | nil => intro c h; simp at h
  | cons d rest ih =>
    intro c h
    rcases Bool.eq_false_or_eq_true (p d) with hd | hd
    · rw [List.dropWhile_cons_of_pos hd] at h
      exact ih h
    · rw [List.dropWhile_cons_of_neg (by simp [hd])] at h
      simp only [List.head?_cons, Option.some.injEq] at h
      exact h ▸ hd

theorem pyStrip_append (l : List Char) :
    ∃ t : List Char, l.dropWhile isPySpace = pyStrip l ++ t := by
  obtain ⟨t, ht⟩ := List.dropWhile_suffix (l := (l.dropWhile isPySpace).reverse) isPySpace
  refine ⟨t.reverse, ?_⟩
  have := congrArg List.reverse ht
  simp only [List.reverse_append, List.reverse_reverse] at this
  rw [pyStrip]
  exact this.symm

theorem pyStrip_subset (l : List Char) : ∀ c ∈ pyStrip l, c ∈ l := by
  intro c hc
  obtain ⟨t, ht⟩ := pyStrip_append l
  have h1 : c ∈ l.dropWhile isPySpace := ht ▸ List.mem_append_left t hc
  exact (List.dropWhile_sublist isPySpace).subset h1

theorem pyStrip_head {l : List Char} {c : Char} (h : (pyStrip l).head? = some c) :
    isPySpace c = false := by
  obtain ⟨t, ht⟩ := pyStrip_append l
  have hne : pyStrip l ≠ [] := by
    intro hnil; rw [hnil] at h; simp at h
  have hhd : (l.dropWhile isPySpace).head? = some c := by
    rw [ht]
    cases hps : pyStrip l with
    | nil => exact absurd hps hne
    | cons a s =>
      rw [hps] at h
      simp only [List.head?_cons, Option.some.injEq] at h
      simp [h]
  exact head?_dropWhileSpace isPySpace l hhd

theorem pyStrip_getLast {l : List Char} {c : Char}
    (h : (pyStrip l).getLast? = some c) : isPySpace c = false := by
  rw [pyStrip, List.getLast?_reverse] at h
  exact head?_dropWhileSpace isPySpace _ h

theorem chain'_pyStrip {l : List Char} (h : List.Chain' noDoubleSpace l) :
    List.Chain' noDoubleSpace (pyStrip l) := by
  have h1 : List.Chain' noDoubleSpace (l.dropWhile isPySpace) :=
    h.suffix (List.dropWhile_suffix isPySpace)
  have h2 : List.Chain' (flip noDoubleSpace) (l.dropWhile isPySpace).reverse :=
    (List.chain'_reverse (R := flip noDoubleSpace)).mpr h1
  have h3 : List.Chain' (flip noDoubleSpace)
      ((l.dropWhile isPySpace).reverse.dropWhile isPySpace) :=
    h2.suffix (List.dropWhile_suffix isPySpace)
  exact (List.chain'_reverse (R := noDoubleSpace)).mpr h3

/-- C8: for every input value, `clean_text` returns a string with no newline,
carriage-return, tab, backslash or double-quote character, with no two
adjacent whitespace characters (hence no run of two or more), and with no
leading or trailing whitespace; every non-string input maps to the empty
string. -/
theorem C8_clean_text_sanitizes (v : PyVal) :
    (∀ c ∈ clean_text v, isEscapeChar c = false) ∧
    List.Chain' noDoubleSpace (clean_text v) ∧
    (∀ c, (clean_text v).head? = some c → isPySpace c = false) ∧
    (∀ c, (clean_text v).getLast? = some c → isPySpace c = false) ∧
    ((∀ s, v ≠ PyVal.vStr s) → clean_text v = []) := by
  cases v with
  | vStr s =>
    refine ⟨?_, ?_, ?_, ?_, ?_⟩
    · intro c hc
      have h1 : c ∈ collapseSpaces false (subEscapes s) :=
        pyStrip_subset _ c hc
      rcases mem_collapseSpaces false (subEscapes s) h1 with h2 | h2
      · subst h2; decide
      · exact mem_subEscapes h2
    · exact chain'_pyStrip (chain'_collapseSpaces false (subEscapes s))
    · intro c hc; exact pyStrip_head hc
    · intro c hc; exact pyStrip_getLast hc
    · intro h; exact absurd rfl (h s)
  | vNone => exact ⟨by simp [clean_text], by simp [clean_text], by simp [clean_text],
      by simp [clean_text], fun _ => rfl⟩
  | vInt n => exact ⟨by simp [clean_text], by simp [clean_text], by simp [clean_text],
      by simp [clean_text], fun _ => rfl⟩
  | vRat q => exact ⟨by simp [clean_text], by simp [clean_text], by simp [clean_text],
      by simp [clean_text], fun _ => rfl⟩

/-- Witness for C8: a concrete evaluation of `clean_text`, and the
non-string clause of `C8_clean_text_sanitizes` applied at a concrete
numeric input. -/
theorem C8_clean_text_sanitizes_witness :
    clean_text (PyVal.vStr [' ', 'a', '\n', '\n', 'b', '\t', ' ', 'c', ' ']) =
      ['a', ' ', 'b', ' ', 'c'] ∧
    clean_text (PyVal.vInt 3) = [] := by
  constructor
  · rfl
  · exact (C8_clean_text_sanitizes (PyVal.vInt 3)).2.2.2.2
      (fun s h => PyVal.noConfusion h)

/-! Strategy dispatch of the recommendations endpoint (`api_recommendations`
in `app.py`): the request carries a strategy name; `cf_model`, `cb_model`
and `hybrid_model` are each either loaded or `None`. -/

/-- The model that ends up answering a recommendations request. -/
inductive ModelUsed where
  | collaborative
  | contentBased
  | hybrid
deriving DecidableEq

/-- Dispatch chain of `api_recommendations`: collaborative when named and
loaded, else content-based when named and loaded, else the hybrid model when
loaded, else the 500 "model not loaded" response (the error case). -/
def api_recommendations_dispatch (strategy : String)
    (cfLoaded cbLoaded hybridLoaded : Bool) : Except Unit ModelUsed :=
  if strategy == "collaborative" && cfLoaded then Except.ok ModelUsed.collaborative
  else if strategy == "content_based" && cbLoaded then Except.ok ModelUsed.contentBased
  else if hybridLoaded then Except.ok ModelUsed.hybrid
  else Except.error ()

/-- A recommendation model as the serving layer sees it: from a user id and
a requested count to either a ranked list or a raised exception. -/
def RecModel : Type := Int → Nat → Except String (List (Int × Rat))

/-- The helper `get_ml_recommendations` of `app.py`: inside a try block it
asks the hybrid model when loaded, else the content-based model when loaded,
else returns the empty list; the except clause maps any raised exception to
the empty list. -/
def get_ml_recommendations (hybridModel cbModel : Option RecModel)
    (userId : Int) (n : Nat) : List (Int × Rat) :=
  match hybridModel with
  | some m =>
    match m userId n with
    | Except.ok l => l
    | Except.error _ => []
  | none =>
    match cbModel with
    | some m =>
      match m userId n with
      | Except.ok l => l
      | Except.error _ => []
    | none => []

/-! The ratings store (`ratings.csv`), its upsert in `api_add_rating`, and
the duplicate removal in `integrate_movielens`. -/

/-- One row of the ratings table. -/
structure RatingRow where
  user_id : Int
  item_id : Int
  rating : Rat
  timestamp : Rat
deriving DecidableEq

/-- The boolean mask of `api_add_rating`: rows whose user and item match
the request. -/
def keyMatches (u i : Int) (row : RatingRow) : Bool :=
  row.user_id == u && row.item_id == i

/-- The (user, item) keys of a store, in order. -/
def storeKeys (store : List RatingRow) : List (Int × Int) :=
  store.map fun row => (row.user_id, row.item_id)

/-- Core of `api_add_rating` after validation: when the mask hits, every
matching row has rating and timestamp overwritten in place; otherwise a
single new row is appended. -/
def upsertRating (store : List RatingRow) (u i : Int) (r ts : Rat) :
    List RatingRow :=
  if store.any (keyMatches u i) then
    store.map fun row =>
      if keyMatches u i row then { row with rating := r, timestamp := ts }
      else row
  else
    store ++ [{ user_id := u, item_id := i, rating := r, timestamp := ts }]

/-- One validated rating event. -/
structure RatingEvent where
  user_id : Int
  item_id : Int
  rating : Rat
  timestamp : Rat

/-- A sequence of rating-ingestion operations applied to the store. -/
def ingestRatings (store : List RatingRow) (events : List RatingEvent) :
    List RatingRow :=
  events.foldl
    (fun s e => upsertRating s e.user_id e.item_id e.rating e.timestamp) store

/-- The drop_duplicates call of `integrate_movielens` on the columns
user_id and item_id with keep equal to last: a row survives exactly when no
later row carries the same key. -/
def dropDuplicatesKeepLast : List RatingRow → List RatingRow
  | [] => []
  | row :: rest =>
    if rest.any (keyMatches row.user_id row.item_id) then
      dropDuplicatesKeepLast rest
    else row :: dropDuplicatesKeepLast rest

/-- The endpoint `api_add_rating` of `app.py`: each body field is either
absent or a number; Python truthiness rejects an absent field and the
number zero alike with a 400 response before the store is touched. -/
def api_add_rating (store : List RatingRow)
    (user_id item_id : Option Int) (rating : Option Rat) (now : Rat) :
    Nat × List RatingRow :=
  match user_id, item_id, rating with
  | some u, some i, some r =>
    if u != 0 && i != 0 && r != 0 then (200, upsertRating store u i r now)
    else (400, store)
  | _, _, _ => (400, store)

theorem any_keyMatches_iff (store : List RatingRow) (u i : Int) :
    store.any (keyMatches u i) = true ↔ (u, i) ∈ storeKeys store := by
  simp only [List.any_eq_true, keyMatches, Bool.and_eq_true, beq_iff_eq,
    storeKeys, List.mem_map, Prod.mk.injEq]

theorem keyMatches_overwrite (u i : Int) (r ts : Rat) (row : RatingRow) :
    keyMatches u i { row with rating := r, timestamp := ts } =
      keyMatches u i row := rfl

theorem storeKeys_upsert (store : List RatingRow) (u i : Int) (r ts : Rat) :
    storeKeys (upsertRating store u i r ts) =
      if store.any (keyMatches u i) then storeKeys store
      else storeKeys store ++ [(u, i)] := by
  unfold upsertRating
  by_cases h : store.any (keyMatches u i) = true
  · rw [if_pos h, if_pos h]
    unfold storeKeys
    rw [List.map_map]
    apply List.map_congr_left
    intro row _
    by_cases hk : keyMatches u i row = true
    · simp only [Function.comp_apply, if_pos hk]
    · simp only [Function.comp_apply, if_neg hk]
  · rw [if_neg h, if_neg h]
    simp [storeKeys]

theorem mem_dropDuplicatesKeepLast {row : RatingRow} :
    ∀ {l : List RatingRow}, row ∈ dropDuplicatesKeepLast l → row ∈ l := by
  intro l
  induction l with
  | nil => intro h; simp [dropDuplicatesKeepLast] at h
  | cons a rest ih =>
    intro h
    unfold dropDuplicatesKeepLast at h
    by_cases ha : rest.any (keyMatches a.user_id a.item_id) = true
    · rw [if_pos ha] at h
      exact List.mem_cons_of_mem a (ih h)
    · rw [if_neg ha] at h
      rcases List.mem_cons.mp h with h1 | h1
      · exact h1 ▸ List.mem_cons_self a rest
      · exact List.mem_cons_of_mem a (ih h1)

theorem nodup_dropDuplicatesKeepLast :
    ∀ (l : List RatingRow), (storeKeys (dropDuplicatesKeepLast l)).Nodup := by
  intro l
  induction l with
  | nil => simp [dropDuplicatesKeepLast, storeKeys]
  | cons a rest ih =>
    unfold dropDuplicatesKeepLast
    by_cases ha : rest.any (keyMatches a.user_id a.item_id) = true
    · rw [if_pos ha]
      exact ih
    · rw [if_neg ha]
      unfold storeKeys
      rw [List.map_cons]
      refine List.nodup_cons.mpr ⟨?_, ih⟩
      intro hmem
      simp only [List.mem_map] at hmem
      obtain ⟨row, hrow, hkey⟩ := hmem
      have hrow' : row ∈ rest := mem_dropDuplicatesKeepLast hrow
      apply ha
      refine List.any_eq_true.mpr ⟨row, hrow', ?_⟩
      simp only [keyMatches, Bool.and_eq_true, beq_iff_eq]
      exact ⟨congrArg Prod.fst hkey, congrArg Prod.snd hkey⟩

theorem nodup_upsertRating {store : List RatingRow}
    (hnd : (storeKeys store).Nodup) (u i : Int) (r ts : Rat) :
    (storeKeys (upsertRating store u i r ts)).Nodup := by
  rw [storeKeys_upsert]
  by_cases h : store.any (keyMatches u i) = true
  · rwa [if_pos h]
  · rw [if_neg h]
    have hnotmem : (u, i) ∉ storeKeys store :=
      fun hm => h ((any_keyMatches_iff store u i).mpr hm)
    refine List.Nodup.append hnd (List.nodup_singleton _) ?_
    intro a ha hb
    rw [List.mem_singleton] at hb
    exact hnotmem (hb ▸ ha)

theorem upsertRating_overwrites (store : List RatingRow) (u i : Int)
    (r ts : Rat) (hhit : store.any (keyMatches u i) = true) :
    (upsertRating store u i r ts).length = store.length ∧
    ∀ row ∈ upsertRating store u i r ts, keyMatches u i row = true →
      row.rating = r ∧ row.timestamp = ts := by
  unfold upsertRating
  rw [if_pos hhit]
  constructor
  · exact List.length_map store _
  · intro row hrow hkey
    simp only [List.mem_map] at hrow
    obtain ⟨x, _, hx⟩ := hrow
    by_cases hk : keyMatches u i x = true
    · rw [if_pos hk] at hx
      subst hx; exact ⟨rfl, rfl⟩
    · rw [if_neg hk] at hx
      exact absurd (hx ▸ hkey) hk

/-- C3: starting from a store whose (user, item) keys are unique, any
sequence of rating-ingestion operations keeps at most one row per key;
an upsert whose key is already present overwrites the matching row's
rating and timestamp without changing the number of rows; and the
duplicate removal of `integrate_movielens` always leaves unique keys,
keeping the last row of each key. -/
theorem C3_rating_store_invariant (store : List RatingRow)
    (events : List RatingEvent) (hnd : (storeKeys store).Nodup) :
    (storeKeys (ingestRatings store events)).Nodup ∧
    (∀ u i r ts, store.any (keyMatches u i) = true →
      (upsertRating store u i r ts).length = store.length ∧
      ∀ row ∈ upsertRating store u i r ts, keyMatches u i row = true →
        row.rating = r ∧ row.timestamp = ts) ∧
    (∀ l : List RatingRow, (storeKeys (dropDuplicatesKeepLast l)).Nodup) := by
  refine ⟨?_, ?_, nodup_dropDuplicatesKeepLast⟩
  · induction events generalizing store with
    | nil => exact hnd
    | cons e rest ih =>
      exact ih _ (nodup_upsertRating hnd e.user_id e.item_id e.rating e.timestamp)
  · intro u i r ts hhit
    exact upsertRating_overwrites store u i r ts hhit

/-- Witness for C3 at a concrete store and event sequence. -/
theorem C3_rating_store_invariant_witness :
    (storeKeys (ingestRatings [⟨1, 2, 3, 0⟩] [⟨1, 2, 5, 1⟩, ⟨4, 2, 4, 2⟩])).Nodup ∧
    (∀ u i r ts, (List.any [⟨1, 2, 3, 0⟩] (keyMatches u i)) = true →
      (upsertRating [⟨1, 2, 3, 0⟩] u i r ts).length = (List.length [(⟨1, 2, 3, 0⟩ : RatingRow)]) ∧
      ∀ row ∈ upsertRating [⟨1, 2, 3, 0⟩] u i r ts, keyMatches u i row = true →
        row.rating = r ∧ row.timestamp = ts) ∧
    (∀ l : List RatingRow, (storeKeys (dropDuplicatesKeepLast l)).Nodup) :=
  C3_rating_store_invariant [⟨1, 2, 3, 0⟩] [⟨1, 2, 5, 1⟩, ⟨4, 2, 4, 2⟩] (by decide)

/-- C9: a rating request with any of its three fields absent or falsy
(for example the number zero) is answered with status 400 and the store is
returned unchanged. -/
theorem C9_falsy_rating_rejected (store : List RatingRow)
    (user_id item_id : Option Int) (rating : Option Rat) (now : Rat)
    (h : user_id = none ∨ item_id = none ∨ rating = none ∨
         user_id = some 0 ∨ item_id = some 0 ∨ rating = some 0) :
    api_add_rating store user_id item_id rating now = (400, store) := by
  cases user_id with
  | none => cases item_id <;> cases rating <;> rfl
  | some u =>
    cases item_id with
    | none => cases rating <;> rfl
    | some i =>
      cases rating with
      | none => rfl
      | some r =>
        simp only [Option.some.injEq, reduceCtorEq, false_or] at h
        rcases h with h | h | h <;> subst h <;>
          simp [api_add_rating]

/-- Witness for C9: the zero rating value is rejected and the store kept. -/
theorem C9_falsy_rating_rejected_witness :
    api_add_rating [⟨1, 2, 3, 0⟩] (some 5) (some 7) (some 0) 9 =
      (400, [⟨1, 2, 3, 0⟩]) :=
  C9_falsy_rating_rejected [⟨1, 2, 3, 0⟩] (some 5) (some 7) (some 0) 9
    (Or.inr (Or.inr (Or.inr (Or.inr (Or.inr rfl)))))

/-- C1 counterexample: with the collaborative model absent and the hybrid
model loaded, a request naming the collaborative strategy is answered by the
hybrid model rather than an explicit error; an unrecognized strategy name is
likewise served silently by the hybrid model. -/
theorem C1_counterexample_silent_fallback :
    api_recommendations_dispatch "collaborative" false true true =
      Except.ok ModelUsed.hybrid ∧
    api_recommendations_dispatch "unknown_strategy" true true true =
      Except.ok ModelUsed.hybrid := by
  exact ⟨rfl, rfl⟩

/-- C1 amended: a request naming a strategy whose model is absent, or an
unrecognized strategy name, silently falls back to the hybrid model when it
is loaded; the explicit error is produced exactly when neither the named
strategy's model nor the hybrid fallback is available. -/
theorem C1_dispatch_fallback (strategy : String) (cf cb hy : Bool) :
    (api_recommendations_dispatch strategy cf cb hy = Except.error () ↔
      ¬(strategy = "collaborative" ∧ cf = true) ∧
      ¬(strategy = "content_based" ∧ cb = true) ∧ hy = false) ∧
    (hy = true → ¬(strategy = "collaborative" ∧ cf = true) →
      ¬(strategy = "content_based" ∧ cb = true) →
      api_recommendations_dispatch strategy cf cb hy =
        Except.ok ModelUsed.hybrid) ∧
    (strategy = "collaborative" → cf = true →
      api_recommendations_dispatch strategy cf cb hy =
        Except.ok ModelUsed.collaborative) ∧
    (strategy = "content_based" → cb = true →
      api_recommendations_dispatch strategy cf cb hy =
        Except.ok ModelUsed.contentBased) := by
  unfold api_recommendations_dispatch
  by_cases h1 : (strategy == "collaborative" && cf) = true
  · rw [if_pos h1]
    have hpair : strategy = "collaborative" ∧ cf = true := by simpa using h1
    refine ⟨?_, ?_, ?_, ?_⟩
    · simp [hpair.1, hpair.2]
    · intro _ hcontra; exact absurd hpair hcontra
    · intro _ _; rfl
    · intro hs _; rw [hpair.1] at hs; exact absurd hs (by decide)
  · rw [if_neg h1]
    have hno1 : ¬(strategy = "collaborative" ∧ cf = true) := by
      intro hcontra
      exact h1 (by simp [hcontra.1, hcontra.2])
    by_cases h2 : (strategy == "content_based" && cb) = true
    · rw [if_pos h2]
      have hpair : strategy = "content_based" ∧ cb = true := by simpa using h2
      refine ⟨?_, ?_, ?_, ?_⟩
      · simp [hpair.1, hpair.2]
      · intro _ _ hcontra; exact absurd hpair hcontra
      · intro hs _; rw [hpair.1] at hs; exact absurd hs (by decide)
      · intro _ _; rfl
    · rw [if_neg h2]
      have hno2 : ¬(strategy = "content_based" ∧ cb = true) := by
        intro hcontra
        exact h2 (by simp [hcontra.1, hcontra.2])
      cases hy with
      | true =>
        refine ⟨by simp, fun _ _ _ => rfl,
          fun hs hc => absurd ⟨hs, hc⟩ hno1,
          fun hs hc => absurd ⟨hs, hc⟩ hno2⟩
      | false =>
        refine ⟨⟨fun _ => ⟨hno1, hno2, rfl⟩, fun _ => rfl⟩,
          fun hcontra => absurd hcontra (by decide),
          fun hs hc => absurd ⟨hs, hc⟩ hno1,
          fun hs hc => absurd ⟨hs, hc⟩ hno2⟩

/-- Witness for C1 amended: concrete dispatch outcomes covering the error
case (nothing loaded), the hybrid fallback and the two named strategies. -/
theorem C1_dispatch_fallback_witness :
    api_recommendations_dispatch "collaborative" false false false =
      Except.error () ∧
    api_recommendations_dispatch "unknown_strategy" false false true =
      Except.ok ModelUsed.hybrid ∧
    api_recommendations_dispatch "collaborative" true false false =
      Except.ok ModelUsed.collaborative ∧
    api_recommendations_dispatch "content_based" false true false =
      Except.ok ModelUsed.contentBased := by
  refine ⟨?_, ?_, ?_, ?_⟩
  · exact (C1_dispatch_fallback "collaborative" false false false).1.mpr
      (by simp)
  · exact (C1_dispatch_fallback "unknown_strategy" false false true).2.1 rfl
      (by simp) (by simp)
  · exact (C1_dispatch_fallback "collaborative" true false false).2.2.1 rfl rfl
  · exact (C1_dispatch_fallback "content_based" false true false).2.2.2 rfl rfl

/-- C6: the recommendation helper returns the empty list - never a
propagated error - whenever no model is loaded or the model that answers
raises; in particular a user on whom the loaded model yields an empty
result or raises gets the empty list. -/
theorem C6_get_ml_recommendations_degrades
    (hybridModel cbModel : Option RecModel) (userId : Int) (n : Nat)
    (hhy : ∀ m, hybridModel = some m →
      m userId n = Except.ok [] ∨ ∃ e, m userId n = Except.error e)
    (hcb : ∀ m, hybridModel = none → cbModel = some m →
      m userId n = Except.ok [] ∨ ∃ e, m userId n = Except.error e) :
    get_ml_recommendations hybridModel cbModel userId n = [] := by
  cases hhyv : hybridModel with
  | some m =>
    rcases hhy m hhyv with h | ⟨e, h⟩ <;> simp [get_ml_recommendations, h]
  | none =>
    cases hcbv : cbModel with
    | some m =>
      rcases hcb m hhyv hcbv with h | ⟨e, h⟩ <;>
        simp [get_ml_recommendations, h]
    | none => simp [get_ml_recommendations]

/-- Witness for C6: a loaded hybrid model that raises, and the fully
unloaded configuration, both yield the empty list. -/
theorem C6_get_ml_recommendations_degrades_witness :
    get_ml_recommendations
      (some fun _ _ => Except.error "model failure") none 42 10 = [] ∧
    get_ml_recommendations none none 42 10 = [] := by
  constructor
  · exact C6_get_ml_recommendations_degrades
      (some fun _ _ => Except.error "model failure") none 42 10
      (fun m hm => by
        rw [Option.some_inj] at hm
        exact Or.inr ⟨"model failure", by rw [← hm]⟩)
      (fun m hm _ => Option.noConfusion hm)
  · exact C6_get_ml_recommendations_degrades none none 42 10
      (fun m hm => Option.noConfusion hm)
      (fun m _ hm => Option.noConfusion hm)

/-! MovieLens integration (`integrate_movielens.py`): the catalog merge
keyed on TMDb identifiers, optional TMDb enrichment, stat normalization,
and the ratings conversion. -/

/-- One row of the MovieLens movies table: id, title, and the
pipe-separated genre string when present. -/
structure MovieRow where
  movieId : Int
  title : String
  genres : Option String

/-- One row of the MovieLens links table: the MovieLens id and its TMDb id
when the mapping exists. -/
structure LinkRow where
  movieId : Int
  tmdbId : Option Int

/-- Lookup into the links table: the TMDb id attached to a MovieLens id,
or nothing when the row is missing or its TMDb cell is empty. -/
def linkTmdb (links : List LinkRow) (movieId : Int) : Option Int :=
  match links.find? (fun l => l.movieId == movieId) with
  | some l => l.tmdbId
  | none => none

/-- An item record of the catalog (items.csv), restricted to the fields the
integration script reads or writes. -/
structure Item where
  item_id : Int
  title : String
  overview : String
  genres : String
  vote_average : Rat
  vote_count : Rat
  popularity : Rat
  popularity_norm : Rat
  vote_average_norm : Rat
  vote_count_norm : Rat
  features_text : String
deriving DecidableEq

/-- The genre string transform of create_item_from_movielens: every pipe
separator becomes a comma and a space. -/
def pipesToCommas : List Char → List Char
  | [] => []
  | c :: rest =>
    if c = '|' then ',' :: ' ' :: pipesToCommas rest
    else c :: pipesToCommas rest

/-- The genres column of a new item: the transformed pipe string, or empty
when the source cell is missing. -/
def mlGenres : Option String → String
  | some g => String.mk (pipesToCommas g.toList)
  | none => ""

/-- create_item_from_movielens of `integrate_movielens.py`: a movie whose
MovieLens id has no TMDb mapping yields nothing; a TMDb id already known
yields nothing; otherwise a bare item with zeroed stats is built. -/
def create_item_from_movielens (movie : MovieRow) (links : List LinkRow)
    (existing : List Int) : Option Item :=
  match linkTmdb links movie.movieId with
  | none => none
  | some tmdbId =>
    if tmdbId ∈ existing then none
    else some
      { item_id := tmdbId
        title := movie.title
        overview := ""
        genres := mlGenres movie.genres
        vote_average := 0
        vote_count := 0
        popularity := 0
        popularity_norm := 0
        vote_average_norm := 0
        vote_count_norm := 0
        features_text := movie.title ++ " " ++ mlGenres movie.genres }

/-- Body of a successful TMDb movie-details response, restricted to the
fields the enrichment reads. -/
structure TmdbDetails where
  overview : String
  vote_average : Rat
  vote_count : Rat
  popularity : Rat
  genreNames : Option (List String)

/-- Outcome of one TMDb detail request: a response carrying its HTTP
status, or a raised exception (network or file failure). -/
inductive TmdbOutcome where
  | response (status : Nat) (body : TmdbDetails)
  | raised

/-- get_tmdb_movie_details of `integrate_movielens.py`: nothing without an
API key; a 200 response yields its body; any other status and any raised
exception yield nothing. -/
def get_tmdb_movie_details (hasApiKey : Bool) (outcome : TmdbOutcome) :
    Option TmdbDetails :=
  if hasApiKey then
    match outcome with
    | TmdbOutcome.response status body =>
      if status == 200 then some body else none
    | TmdbOutcome.raised => none
  else none

/-- enrich_with_tmdb of `integrate_movielens.py`: with no details the item
is returned unchanged; otherwise the TMDb fields overwrite the bare ones
and the feature text is rebuilt. -/
def enrich_with_tmdb (item : Item) (details : Option TmdbDetails) : Item :=
  match details with
  | none => item
  | some d =>
    let genres :=
      match d.genreNames with
      | some names => String.intercalate ", " names
      | none => item.genres
    { item with
        overview := d.overview
        vote_average := d.vote_average
        vote_count := d.vote_count
        popularity := d.popularity
        genres := genres
        features_text := item.title ++ " " ++ genres ++ " " ++ d.overview }

/-- The film loop of integrate_movielens: each movie row becomes at most
one new item, enriched when requested; the set of known TMDb ids grows as
items are appended, so a TMDb id is never added twice. -/
def integrateNewItems (enrich : Bool) (fetch : Int → Option TmdbDetails)
    (links : List LinkRow) : List MovieRow → List Int → List Item
  | [], _ => []
  | movie :: rest, existing =>
    match create_item_from_movielens movie links existing with
    | some item =>
      let item2 :=
        if enrich then enrich_with_tmdb item (fetch item.item_id) else item
      item2 :: integrateNewItems enrich fetch links rest
        (item2.item_id :: existing)
    | none => integrateNewItems enrich fetch links rest existing

/-- Column maximum of the normalization block (used only under a
positivity guard, where it agrees with the pandas column max). -/
def colMax (xs : List Rat) : Rat := xs.foldr max 0

/-- The normalization block of integrate_movielens, applied to the
combined catalog before it is saved: popularity and vote count scaled by
their observed maxima when positive, vote average scaled by the fixed
bound 10. -/
def normalizeItems (items : List Item) : List Item :=
  let maxPop := colMax (items.map Item.popularity)
  let maxVotes := colMax (items.map Item.vote_count)
  let step1 :=
    if 0 < maxPop then
      items.map fun it => { it with popularity_norm := it.popularity / maxPop }
    else items
  let step2 :=
    step1.map fun it => { it with vote_average_norm := it.vote_average / 10 }
  if 0 < maxVotes then
    step2.map fun it => { it with vote_count_norm := it.vote_count / maxVotes }
  else step2

/-- The pointwise effect of `normalizeItems` on one catalog row. -/
def applyNorm (items : List Item) (it : Item) : Item :=
  let maxPop := colMax (items.map Item.popularity)
  let maxVotes := colMax (items.map Item.vote_count)
  let a :=
    if 0 < maxPop then { it with popularity_norm := it.popularity / maxPop }
    else it
  let b := { a with vote_average_norm := a.vote_average / 10 }
  if 0 < maxVotes then { b with vote_count_norm := b.vote_count / maxVotes }
  else b

/-- One row of the MovieLens ratings table. -/
structure MlRating where
  userId : Int
  movieId : Int
  rating : Rat
  timestamp : Rat

/-- convert_movielens_ratings of `integrate_movielens.py`: the left merge
with the links table keyed on movieId, the removal of rows with no TMDb
id, and the reshaping with the user offset 1000. -/
def convert_movielens_ratings (mlRatings : List MlRating)
    (links : List LinkRow) : List RatingRow :=
  mlRatings.filterMap fun row =>
    match linkTmdb links row.movieId with
    | none => none
    | some tmdbId => some
        { user_id := row.userId + 1000
          item_id := tmdbId
          rating := row.rating
          timestamp := row.timestamp }

theorem enrich_item_id (item : Item) (details : Option TmdbDetails) :
    (enrich_with_tmdb item details).item_id = item.item_id := by
  cases details <;> rfl

theorem integrateNewItems_cons (enrich : Bool)
    (fetch : Int → Option TmdbDetails) (links : List LinkRow)
    (movie : MovieRow) (rest : List MovieRow) (existing : List Int) :
    integrateNewItems enrich fetch links (movie :: rest) existing =
      match create_item_from_movielens movie links existing with
      | some item =>
        (if enrich then enrich_with_tmdb item (fetch item.item_id)
         else item) ::
          integrateNewItems enrich fetch links rest
            ((if enrich then enrich_with_tmdb item (fetch item.item_id)
              else item).item_id :: existing)
      | none => integrateNewItems enrich fetch links rest existing := rfl

theorem create_item_some {movie : MovieRow} {links : List LinkRow}
    {existing : List Int} {item : Item}
    (h : create_item_from_movielens movie links existing = some item) :
    linkTmdb links movie.movieId = some item.item_id ∧
    item.item_id ∉ existing := by
  unfold create_item_from_movielens at h
  split at h
  · exact absurd h (by simp)
  · next t hl =>
    split at h
    · exact absurd h (by simp)
    · next hmem =>
      have hval := Option.some_inj.mp h
      refine ⟨?_, ?_⟩
      · rw [← hval]; exact hl
      · rw [← hval]; exact hmem

theorem create_item_none {movie : MovieRow} {links : List LinkRow}
    {existing : List Int}
    (h : create_item_from_movielens movie links existing = none) :
    linkTmdb links movie.movieId = none ∨
    ∃ t, linkTmdb links movie.movieId = some t ∧ t ∈ existing := by
  unfold create_item_from_movielens at h
  split at h
  · next hl => exact Or.inl hl
  · next t hl =>
    split at h
    · next hmem => exact Or.inr ⟨t, hl, hmem⟩
    · exact absurd h (by simp)

theorem integrate_new_not_existing (enrich : Bool)
    (fetch : Int → Option TmdbDetails) (links : List LinkRow) :
    ∀ (movies : List MovieRow) (existing : List Int),
      ∀ it ∈ integrateNewItems enrich fetch links movies existing,
        it.item_id ∉ existing := by
  intro movies
  induction movies with
  | nil => intro existing it hit; simp [integrateNewItems] at hit
  | cons movie rest ih =>
    intro existing it hit
    unfold integrateNewItems at hit
    cases hc : create_item_from_movielens movie links existing with
    | some item =>
      rw [hc] at hit
      simp only at hit
      rcases List.mem_cons.mp hit with h1 | h1
      · subst h1
        have hid : (if enrich then enrich_with_tmdb item (fetch item.item_id)
            else item).item_id = item.item_id := by
          by_cases he : enrich = true
          · rw [if_pos he]; exact enrich_item_id item _
          · rw [if_neg he]
        rw [hid]
        exact (create_item_some hc).2
      · have := ih _ it h1
        intro hmem
        exact this (List.mem_cons_of_mem _ hmem)
    | none =>
      rw [hc] at hit
      exact ih existing it hit

theorem integrate_ids_nodup (enrich : Bool)
    (fetch : Int → Option TmdbDetails) (links : List LinkRow) :
    ∀ (movies : List MovieRow) (existing : List Int), existing.Nodup →
      (existing ++
        (integrateNewItems enrich fetch links movies existing).map
          Item.item_id).Nodup := by
  intro movies
  induction movies with
  | nil => intro existing hnd; simpa [integrateNewItems] using hnd
  | cons movie rest ih =>
    intro existing hnd
    unfold integrateNewItems
    cases hc : create_item_from_movielens movie links existing with
    | some item =>
      simp only [List.map_cons]
      set item2 :=
        if enrich then enrich_with_tmdb item (fetch item.item_id) else item
        with hitem2
      have hid : item2.item_id = item.item_id := by
        rw [hitem2]
        by_cases he : enrich = true
        · rw [if_pos he]; exact enrich_item_id item _
        · rw [if_neg he]
      have hnotmem : item2.item_id ∉ existing := by
        rw [hid]; exact (create_item_some hc).2
      have hnd2 : (item2.item_id :: existing).Nodup :=
        List.nodup_cons.mpr ⟨hnotmem, hnd⟩
      have := ih (item2.item_id :: existing) hnd2
      rw [List.cons_append] at this
      exact (List.nodup_middle).mpr this
    | none => exact ih existing hnd

theorem integrate_covers (enrich : Bool) (fetch : Int → Option TmdbDetails)
    (links : List LinkRow) :
    ∀ (movies : List MovieRow) (existing : List Int),
      ∀ movie ∈ movies, ∀ t, linkTmdb links movie.movieId = some t →
        t ∈ existing ++
          (integrateNewItems enrich fetch links movies existing).map
            Item.item_id := by
  intro movies
  induction movies with
  | nil => intro existing movie hmovie; cases hmovie
  | cons m rest ih =>
    intro existing movie hmovie t ht
    unfold integrateNewItems
    cases hc : create_item_from_movielens m links existing with
    | some item =>
      simp only [List.map_cons]
      set item2 :=
        if enrich then enrich_with_tmdb item (fetch item.item_id) else item
        with hitem2
      have hid : item2.item_id = item.item_id := by
        rw [hitem2]
        by_cases he : enrich = true
        · rw [if_pos he]; exact enrich_item_id item _
        · rw [if_neg he]
      rcases List.mem_cons.mp hmovie with h1 | h1
      · subst h1
        have := (create_item_some hc).1
        rw [ht] at this
        have htid : t = item.item_id := by
          exact Option.some_inj.mp this
        rw [htid, ← hid]
        simp
      · have := ih (item2.item_id :: existing) movie h1 t ht
        simp only [List.cons_append, List.mem_cons, List.mem_append,
          List.mem_map] at this ⊢
        tauto
    | none =>
      rcases List.mem_cons.mp hmovie with h1 | h1
      · subst h1
        rcases create_item_none hc with h2 | ⟨t', h2, h3⟩
        · rw [ht] at h2; cases h2
        · rw [ht] at h2
          have : t = t' := Option.some_inj.mp h2
          subst this
          exact List.mem_append_left _ h3
      · exact ih existing movie h1 t ht

theorem integrate_all_known (enrich : Bool) (fetch : Int → Option TmdbDetails)
    (links : List LinkRow) :
    ∀ (movies : List MovieRow) (existing : List Int),
      (∀ movie ∈ movies, ∀ t, linkTmdb links movie.movieId = some t →
        t ∈ existing) →
      integrateNewItems enrich fetch links movies existing = [] := by
  intro movies
  induction movies with
  | nil => intro existing _; rfl
  | cons m rest ih =>
    intro existing hall
    unfold integrateNewItems
    cases hc : create_item_from_movielens m links existing with
    | some item =>
      exfalso
      have h1 := (create_item_some hc).1
      have h2 := hall m (List.mem_cons_self m rest) item.item_id h1
      exact (create_item_some hc).2 h2
    | none =>
      exact ih existing fun movie hm => hall movie (List.mem_cons_of_mem m hm)

/-- C2: merging a MovieLens batch into a catalog with distinct TMDb ids
appends only items whose id was not yet known, the combined id list stays
free of duplicates, and running the very same batch again against the
combined catalog appends nothing (idempotence). -/
theorem C2_catalog_merge_idempotent (enrich : Bool)
    (fetch : Int → Option TmdbDetails) (links : List LinkRow)
    (movies : List MovieRow) (existing : List Int) (hnd : existing.Nodup) :
    (∀ it ∈ integrateNewItems enrich fetch links movies existing,
      it.item_id ∉ existing) ∧
    (existing ++
      (integrateNewItems enrich fetch links movies existing).map
        Item.item_id).Nodup ∧
    integrateNewItems enrich fetch links movies
      (existing ++
        (integrateNewItems enrich fetch links movies existing).map
          Item.item_id) = [] := by
  refine ⟨integrate_new_not_existing enrich fetch links movies existing,
    integrate_ids_nodup enrich fetch links movies existing hnd, ?_⟩
  apply integrate_all_known
  intro movie hm t ht
  exact integrate_covers enrich fetch links movies existing movie hm t ht

/-- Witness for C2: a concrete two-movie batch (one sharing the known TMDb
id 7, one new) merged into a catalog knowing id 7. -/
theorem C2_catalog_merge_idempotent_witness :
    (∀ it ∈ integrateNewItems false (fun _ => none)
        [⟨1, some 7⟩, ⟨2, some 9⟩]
        [⟨1, "Old", none⟩, ⟨2, "New", none⟩] [7],
      it.item_id ∉ [7]) ∧
    ([7] ++
      (integrateNewItems false (fun _ => none)
        [⟨1, some 7⟩, ⟨2, some 9⟩]
        [⟨1, "Old", none⟩, ⟨2, "New", none⟩] [7]).map
        Item.item_id).Nodup ∧
    integrateNewItems false (fun _ => none)
      [⟨1, some 7⟩, ⟨2, some 9⟩]
      [⟨1, "Old", none⟩, ⟨2, "New", none⟩]
      ([7] ++
        (integrateNewItems false (fun _ => none)
          [⟨1, some 7⟩, ⟨2, some 9⟩]
          [⟨1, "Old", none⟩, ⟨2, "New", none⟩] [7]).map
          Item.item_id) = [] :=
  C2_catalog_merge_idempotent false (fun _ => none)
    [⟨1, some 7⟩, ⟨2, some 9⟩]
    [⟨1, "Old", none⟩, ⟨2, "New", none⟩] [7] (by decide)

/-- C5: a movie row with no TMDb mapping is skipped and the batch result is
exactly what the remaining rows produce; a TMDb detail request that raises
or answers with a non-200 status yields no details; and enriching with no
details returns the item unchanged - one bad record never aborts the
batch. -/
theorem C5_bad_record_skipped (enrich : Bool)
    (fetch : Int → Option TmdbDetails) (links : List LinkRow)
    (pre post : List MovieRow) (bad : MovieRow) (existing : List Int)
    (hbad : linkTmdb links bad.movieId = none) :
    integrateNewItems enrich fetch links (pre ++ bad :: post) existing =
      integrateNewItems enrich fetch links (pre ++ post) existing ∧
    (∀ (hasKey : Bool) (status : Nat) (body : TmdbDetails), status ≠ 200 →
      get_tmdb_movie_details hasKey (TmdbOutcome.response status body) =
        none) ∧
    (∀ hasKey : Bool, get_tmdb_movie_details hasKey TmdbOutcome.raised =
      none) ∧
    (∀ item : Item, enrich_with_tmdb item none = item) := by
  refine ⟨?_, ?_, ?_, fun item => rfl⟩
  · induction pre generalizing existing with
    | nil =>
      simp only [List.nil_append]
      rw [integrateNewItems_cons]
      cases hc : create_item_from_movielens bad links existing with
      | some item =>
        exact absurd (create_item_some hc).1 (by rw [hbad]; simp)
      | none => simp only [hc]
    | cons m rest ih =>
      simp only [List.cons_append]
      rw [integrateNewItems_cons, integrateNewItems_cons]
      cases hc : create_item_from_movielens m links existing with
      | some item => simp only [hc, ih]
      | none => simp only [hc]; exact ih existing
  · intro hasKey status body hstatus
    cases hasKey with
    | false => rfl
    | true =>
      simp [get_tmdb_movie_details, hstatus]
  · intro hasKey
    cases hasKey <;> rfl

/-- Witness for C5: a concrete batch whose middle row has no TMDb mapping,
and a concrete failed request. -/
theorem C5_bad_record_skipped_witness :
    integrateNewItems false (fun _ => none) [⟨1, some 7⟩]
      ([⟨3, "Good", none⟩] ++ ⟨2, "Bad", none⟩ :: [⟨1, "Tail", none⟩]) [] =
      integrateNewItems false (fun _ => none) [⟨1, some 7⟩]
        ([⟨3, "Good", none⟩] ++ [⟨1, "Tail", none⟩]) [] ∧
    (∀ (hasKey : Bool) (status : Nat) (body : TmdbDetails), status ≠ 200 →
      get_tmdb_movie_details hasKey (TmdbOutcome.response status body) =
        none) ∧
    (∀ hasKey : Bool, get_tmdb_movie_details hasKey TmdbOutcome.raised =
      none) ∧
    (∀ item : Item, enrich_with_tmdb item none = item) :=
  C5_bad_record_skipped false (fun _ => none) [⟨1, some 7⟩]
    [⟨3, "Good", none⟩] [⟨1, "Tail", none⟩] ⟨2, "Bad", none⟩ [] rfl

/-- C10: the ratings conversion keeps exactly the MovieLens rows whose
movieId maps to a TMDb id, mapping each to (userId + 1000, tmdbId, same
rating, same timestamp); when every source user id is at least 1, every
converted user id exceeds 1000. -/
theorem C10_convert_ratings (mlRatings : List MlRating)
    (links : List LinkRow) :
    (∀ out : RatingRow, out ∈ convert_movielens_ratings mlRatings links ↔
      ∃ row ∈ mlRatings, ∃ t, linkTmdb links row.movieId = some t ∧
        out = { user_id := row.userId + 1000, item_id := t,
                rating := row.rating, timestamp := row.timestamp }) ∧
    ((∀ row ∈ mlRatings, 1 ≤ row.userId) →
      ∀ out ∈ convert_movielens_ratings mlRatings links,
        1000 < out.user_id) := by
  have hmem : ∀ out : RatingRow,
      out ∈ convert_movielens_ratings mlRatings links ↔
      ∃ row ∈ mlRatings, ∃ t, linkTmdb links row.movieId = some t ∧
        out = { user_id := row.userId + 1000, item_id := t,
                rating := row.rating, timestamp := row.timestamp } := by
    intro out
    unfold convert_movielens_ratings
    rw [List.mem_filterMap]
    constructor
    · rintro ⟨row, hrow, hf⟩
      cases hl : linkTmdb links row.movieId with
      | none => rw [hl] at hf; cases hf
      | some t =>
        rw [hl] at hf
        exact ⟨row, hrow, t, hl, (Option.some_inj.mp hf).symm⟩
    · rintro ⟨row, hrow, t, hl, hout⟩
      refine ⟨row, hrow, ?_⟩
      rw [hl, hout]
  refine ⟨hmem, ?_⟩
  intro husers out hout
  rcases (hmem out).mp hout with ⟨row, hrow, t, _, hval⟩
  have h1 : 1 ≤ row.userId := husers row hrow
  rw [hval]
  show (1000 : Int) < row.userId + 1000
  omega

/-- Witness for C10: a concrete batch where the row mapped to TMDb id 77 is
kept with user offset 1000 and the unmapped row is dropped. -/
theorem C10_convert_ratings_witness :
    ((⟨1001, 77, 5, 100⟩ : RatingRow) ∈
      convert_movielens_ratings [⟨1, 10, 5, 100⟩, ⟨2, 11, 3, 200⟩]
        [⟨10, some 77⟩, ⟨11, none⟩]) ∧
    (∀ out ∈ convert_movielens_ratings [⟨1, 10, 5, 100⟩, ⟨2, 11, 3, 200⟩]
        [⟨10, some 77⟩, ⟨11, none⟩], 1000 < out.user_id) := by
  constructor
  · exact (C10_convert_ratings [⟨1, 10, 5, 100⟩, ⟨2, 11, 3, 200⟩]
      [⟨10, some 77⟩, ⟨11, none⟩]).1 ⟨1001, 77, 5, 100⟩ |>.mpr
      ⟨⟨1, 10, 5, 100⟩, by simp, 77, by decide, by decide⟩
  · exact (C10_convert_ratings [⟨1, 10, 5, 100⟩, ⟨2, 11, 3, 200⟩]
      [⟨10, some 77⟩, ⟨11, none⟩]).2 (by decide)

theorem le_colMax {xs : List Rat} {x : Rat} (hx : x ∈ xs) : x ≤ colMax xs := by
  induction xs with
  | nil => cases hx
  | cons a rest ih =>
    rcases List.mem_cons.mp hx with h | h
    · subst h; exact le_max_left x (colMax rest)
    · exact (ih h).trans (le_max_right a (colMax rest))

theorem normalizeItems_eq_map (items : List Item) :
    normalizeItems items = items.map (applyNorm items) := by
  unfold normalizeItems applyNorm
  by_cases h1 : 0 < colMax (items.map Item.popularity) <;>
    by_cases h2 : 0 < colMax (items.map Item.vote_count) <;>
      simp only [h1, h2, if_true, if_false, List.map_map] <;>
        (apply List.map_congr_left; intro it _; rfl)

/-- C4: after the normalization block, each catalog row's popularity_norm
equals its popularity divided by the observed maximum popularity (when that
maximum is positive), vote_count_norm equals vote_count divided by the
observed maximum vote count (when positive), vote_average_norm equals
vote_average divided by the fixed bound 10; and each normalized value lies
in [0,1] whenever its raw stat is non-negative and at most the bound
used. -/
theorem C4_normalized_stats (items : List Item) (i : Nat)
    (hi : i < items.length) (ho : i < (normalizeItems items).length) :
    (0 < colMax (items.map Item.popularity) →
      (normalizeItems items)[i].popularity_norm =
        items[i].popularity / colMax (items.map Item.popularity)) ∧
    (normalizeItems items)[i].vote_average_norm =
      items[i].vote_average / 10 ∧
    (0 < colMax (items.map Item.vote_count) →
      (normalizeItems items)[i].vote_count_norm =
        items[i].vote_count / colMax (items.map Item.vote_count)) ∧
    (0 < colMax (items.map Item.popularity) → 0 ≤ items[i].popularity →
      0 ≤ (normalizeItems items)[i].popularity_norm ∧
        (normalizeItems items)[i].popularity_norm ≤ 1) ∧
    (0 < colMax (items.map Item.vote_count) → 0 ≤ items[i].vote_count →
      0 ≤ (normalizeItems items)[i].vote_count_norm ∧
        (normalizeItems items)[i].vote_count_norm ≤ 1) ∧
    (0 ≤ items[i].vote_average → items[i].vote_average ≤ 10 →
      0 ≤ (normalizeItems items)[i].vote_average_norm ∧
        (normalizeItems items)[i].vote_average_norm ≤ 1) := by
  have hmem_pop : items[i].popularity ∈ items.map Item.popularity :=
    List.mem_map_of_mem Item.popularity (items.getElem_mem hi)
  have hmem_vc : items[i].vote_count ∈ items.map Item.vote_count :=
    List.mem_map_of_mem Item.vote_count (items.getElem_mem hi)
  have hx : (normalizeItems items)[i] = applyNorm items items[i] := by
    simp [normalizeItems_eq_map items]
  rw [hx]
  unfold applyNorm
  have hva : ∀ q : Rat, 0 ≤ q → q ≤ 10 → 0 ≤ q / 10 ∧ q / 10 ≤ 1 := by
    intro q hq hq10
    exact ⟨div_nonneg hq (by norm_num),
      (div_le_one (by norm_num)).mpr hq10⟩
  by_cases h1 : 0 < colMax (items.map Item.popularity)
  · by_cases h2 : 0 < colMax (items.map Item.vote_count)
    · simp only [if_pos h1, if_pos h2]
      refine ⟨by intros; trivial, by intros; trivial, by intros; trivial,
        ?_, ?_, ?_⟩
      · intro _ hpop
        exact ⟨div_nonneg hpop (le_of_lt h1),
          (div_le_one h1).mpr (le_colMax hmem_pop)⟩
      · intro _ hvc
        exact ⟨div_nonneg hvc (le_of_lt h2),
          (div_le_one h2).mpr (le_colMax hmem_vc)⟩
      · exact hva _
    · simp only [if_pos h1, if_neg h2]
      refine ⟨by intros; trivial, by intros; trivial,
        fun hc => absurd hc h2, ?_, fun hc => absurd hc h2, ?_⟩
      · intro _ hpop
        exact ⟨div_nonneg hpop (le_of_lt h1),
          (div_le_one h1).mpr (le_colMax hmem_pop)⟩
      · exact hva _
  · by_cases h2 : 0 < colMax (items.map Item.vote_count)
    · simp only [if_neg h1, if_pos h2]
      refine ⟨fun hc => absurd hc h1, by intros; trivial,
        by intros; trivial, fun hc => absurd hc h1, ?_, ?_⟩
      · intro _ hvc
        exact ⟨div_nonneg hvc (le_of_lt h2),
          (div_le_one h2).mpr (le_colMax hmem_vc)⟩
      · exact hva _
    · simp only [if_neg h1, if_neg h2]
      exact ⟨fun hc => absurd hc h1, by intros; trivial,
        fun hc => absurd hc h2, fun hc => absurd hc h1,
        fun hc => absurd hc h2, hva _⟩

/-- Concrete catalog row used by the witnesses. -/
def demoItemA : Item :=
  { item_id := 1, title := "A", overview := "", genres := "",
    vote_average := 8, vote_count := 1, popularity := 2,
    popularity_norm := 0, vote_average_norm := 0, vote_count_norm := 0,
    features_text := "" }

/-- Second concrete catalog row used by the witnesses. -/
def demoItemB : Item :=
  { item_id := 2, title := "B", overview := "", genres := "",
    vote_average := 6, vote_count := 4, popularity := 4,
    popularity_norm := 0, vote_average_norm := 0, vote_count_norm := 0,
    features_text := "" }

/-- Witness for C4 on a concrete two-item catalog: the popularity of the
first row ends up scaled by the observed maximum 4. -/
theorem C4_normalized_stats_witness :
    ((0 : Rat) < colMax ([demoItemA, demoItemB].map Item.popularity) →
      ((normalizeItems [demoItemA, demoItemB]).get
          ⟨0, by decide⟩).popularity_norm =
        (([demoItemA, demoItemB]).get ⟨0, by decide⟩).popularity /
          colMax ([demoItemA, demoItemB].map Item.popularity)) ∧
    (0 ≤ (([demoItemA, demoItemB]).get ⟨0, by decide⟩).vote_average →
      (([demoItemA, demoItemB]).get ⟨0, by decide⟩).vote_average ≤ 10 →
      0 ≤ ((normalizeItems [demoItemA, demoItemB]).get
          ⟨0, by decide⟩).vote_average_norm ∧
        ((normalizeItems [demoItemA, demoItemB]).get
          ⟨0, by decide⟩).vote_average_norm ≤ 1) ∧
    ((normalizeItems [demoItemA, demoItemB]).get
        ⟨0, by decide⟩).popularity_norm = 1 / 2 := by
  refine ⟨?_, ?_, ?_⟩
  · exact (C4_normalized_stats [demoItemA, demoItemB] 0
      (by decide) (by decide)).1
  · exact (C4_normalized_stats [demoItemA, demoItemB] 0
      (by decide) (by decide)).2.2.2.2.2
  · exact Eq.trans
      ((C4_normalized_stats [demoItemA, demoItemB] 0
        (by decide) (by decide)).1 (by decide))
      (by show (2 : Rat) / max 2 (max 4 0) = 1 / 2; norm_num)

/-! Content-based similarity queries.  The repository's trained model class
itself (ml_recommendation_engine/models/content_based.py) is not among the
source files; the definitions below are modelled from the spec. -/

/-- Modelled from the spec: the missing trained ContentBasedFiltering model
is, per the spec, a SimilarityIndex - per item a bounded list of (other
item id, similarity) pairs. -/
structure ContentBasedModel where
  similarityIndex : List (Int × List (Int × Rat))

/-- Modelled from the spec: the SimilarityIndex row of one item, when the
item is part of the trained catalog. -/
def indexRow (model : ContentBasedModel) (itemId : Int) :
    Option (List (Int × Rat)) :=
  match model.similarityIndex.find? (fun e => e.1 == itemId) with
  | some e => some e.2
  | none => none

/-- Query-time error taxonomy of the spec: the recoverable NotFound case. -/
inductive QueryError where
  | notFound
deriving DecidableEq

/-- Modelled from the spec: get_similar_items(item_id, n) returns the first
n entries of that item's SimilarityIndex row and fails with a NotFound
condition when the item is absent from the trained catalog. -/
def get_similar_items (model : ContentBasedModel) (itemId : Int) (n : Nat) :
    Except QueryError (List (Int × Rat)) :=
  match indexRow model itemId with
  | none => Except.error QueryError.notFound
  | some row => Except.ok (row.take n)

/-- Modelled from the spec: a trained model is well formed when every
similarity row omits the item itself and is ordered non-increasing by
similarity. -/
def TrainedModel (model : ContentBasedModel) : Prop :=
  ∀ e ∈ model.similarityIndex,
    (∀ p ∈ e.2, p.1 ≠ e.1) ∧
    List.Pairwise (fun a b : Int × Rat => b.2 ≤ a.2) e.2

theorem indexRow_mem {model : ContentBasedModel} {itemId : Int}
    {row : List (Int × Rat)} (h : indexRow model itemId = some row) :
    ∃ e ∈ model.similarityIndex, e.1 = itemId ∧ e.2 = row := by
  unfold indexRow at h
  cases hf : model.similarityIndex.find? (fun e => e.1 == itemId) with
  | none => rw [hf] at h; cases h
  | some e =>
    rw [hf] at h
    refine ⟨e, List.mem_of_find?_eq_some hf, ?_, Option.some_inj.mp h⟩
    have := List.find?_some hf
    exact beq_iff_eq.mp this

/-- C7: for a trained content-based model, a query on an item of the
trained catalog returns at most n entries, never the item itself, ordered
non-increasing by similarity; a query on an absent item fails with the
NotFound condition. -/
theorem C7_get_similar_items (model : ContentBasedModel)
    (h : TrainedModel model) (itemId : Int) (n : Nat) :
    (∀ row, indexRow model itemId = some row →
      ∃ res, get_similar_items model itemId n = Except.ok res ∧
        res.length ≤ n ∧ (∀ p ∈ res, p.1 ≠ itemId) ∧
        List.Pairwise (fun a b : Int × Rat => b.2 ≤ a.2) res) ∧
    (indexRow model itemId = none →
      get_similar_items model itemId n = Except.error QueryError.notFound) := by
  constructor
  · intro row hrow
    refine ⟨row.take n, ?_, ?_, ?_, ?_⟩
    · unfold get_similar_items
      rw [hrow]
    · rw [List.length_take]
      exact min_le_left n row.length
    · intro p hp
      obtain ⟨e, he, he1, he2⟩ := indexRow_mem hrow
      have hmem : p ∈ row := (List.take_sublist n row).subset hp
      have := (h e he).1 p (he2 ▸ hmem)
      rw [he1] at this
      exact this
    · obtain ⟨e, he, he1, he2⟩ := indexRow_mem hrow
      have := (h e he).2
      rw [he2] at this
      exact List.Pairwise.sublist (List.take_sublist n row) this
  · intro hnone
    unfold get_similar_items
    rw [hnone]

/-- Concrete trained model used by the C7 witness. -/
def demoModel : ContentBasedModel :=
  { similarityIndex :=
      [(1, [(2, 2), (3, 1)]), (2, [(1, 2)])] }

/-- Witness for C7: the concrete model answers a known item with a bounded,
self-free, ordered list and an unknown item with NotFound. -/
theorem C7_get_similar_items_witness :
    (∃ res, get_similar_items demoModel 1 1 = Except.ok res ∧
      res.length ≤ 1 ∧ (∀ p ∈ res, p.1 ≠ 1) ∧
      List.Pairwise (fun a b : Int × Rat => b.2 ≤ a.2) res) ∧
    get_similar_items demoModel 99 5 = Except.error QueryError.notFound :=
  ⟨(C7_get_similar_items demoModel (by unfold TrainedModel; decide) 1 1).1
      [(2, 2), (3, 1)] rfl,
   (C7_get_similar_items demoModel (by unfold TrainedModel; decide) 99 5).2
      rfl⟩

end MovieApp
